import Mathlib

/-!
Shallow embedding of the rating engine of `src/main.ts` (obsidian-plugin-elolist).

JavaScript numbers are modelled as `Option ℚ`: `some q` is an ordinary (finite)
number, `none` is the NaN sentinel produced by a failed `parseFloat`.  The JS
arithmetic, comparison, `Math.min`/`Math.max`/`Math.abs` operations are lifted
so that NaN propagates (`none` absorbs) and every comparison involving NaN is
false, exactly as in JS.  Infinities do not arise in the modelled fragment
(values come from `parseFloat` of finite decimal literals and from rational
arithmetic on them) and are not modelled; `Math.pow(10, ·)` — the only
transcendental operation, used inside the win-probability function — is kept
abstract as a parameter `tenPow : ℚ → ℚ` of the update operations.
-/

/-- A JS number: `some q` is a finite value, `none` is NaN. -/
abbrev JSNum := Option ℚ

/-- JS `+` (NaN-propagating). -/
def jsAdd : JSNum → JSNum → JSNum
  | some a, some b => some (a + b)
  | _, _ => none

/-- JS `-` (NaN-propagating). -/
def jsSub : JSNum → JSNum → JSNum
  | some a, some b => some (a - b)
  | _, _ => none

/-- JS `*` (NaN-propagating). -/
def jsMul : JSNum → JSNum → JSNum
  | some a, some b => some (a * b)
  | _, _ => none

/-- JS `/`.  A zero denominator gives Infinity in JS, which is unreachable in
the modelled code (the only division is by `400` and by `1 + Math.pow(10, x)`,
and `Math.pow(10, x) > 0`); we return the absorbing element there. -/
def jsDiv : JSNum → JSNum → JSNum
  | some a, some b => if b = 0 then none else some (a / b)
  | _, _ => none

/-- JS `Math.abs` (NaN-propagating). -/
def jsAbs : JSNum → JSNum
  | some a => some |a|
  | none => none

/-- JS `Math.min`: NaN if either argument is NaN. -/
def jsMin : JSNum → JSNum → JSNum
  | some a, some b => some (min a b)
  | _, _ => none

/-- JS `Math.max`: NaN if either argument is NaN. -/
def jsMax : JSNum → JSNum → JSNum
  | some a, some b => some (max a b)
  | _, _ => none

/-- JS `<` on numbers: any comparison with NaN is false. -/
def jsLt : JSNum → JSNum → Bool
  | some a, some b => decide (a < b)
  | _, _ => false

/-- `type EloRelationOp = "eq" | "gt" | "lt" | "nop"` (src/main.ts:22). -/
inductive EloRelationOp where
  | eq
  | gt
  | lt
  | nop
deriving DecidableEq, BEq, Repr

/-- `interface EloRelation { op; value }` (src/main.ts:24-27). -/
structure EloRelation where
  op : EloRelationOp
  value : JSNum
deriving DecidableEq, Repr

/-- `interface EloItem { title; estimatedElo; eloRelations }` (src/main.ts:29-33). -/
structure EloItem where
  title : String
  estimatedElo : JSNum
  eloRelations : List EloRelation
deriving DecidableEq, Repr

/-- `const ITEM_INCUBATION_TIME = 4` (src/main.ts:36). -/
def ITEM_INCUBATION_TIME : Nat := 4

/-- `const DEFAULT_ELO = 600` (src/main.ts:37). -/
def DEFAULT_ELO : ℚ := 600

/-- The bounds scan of `estimateElo` (src/main.ts:98-113), before the ±1
expansion.  The accumulator is seeded with `eloRelations[0].value` (whatever
its op is), and the loop body for `i = 1, …` reads `eloRelations[1].value` —
the literal index `1`, not `i`, exactly as the source does.  `v1` is only
inspected when the loop body runs, i.e. when `rest` is nonempty, so giving it
the dummy value `none` for an empty `rest` is unobservable. -/
def computeBounds : List EloRelation → JSNum × JSNum
  | [] => (none, none)
  | r0 :: rest =>
    let v1 : JSNum := match rest with
      | [] => none
      | r1 :: _ => r1.value
    rest.foldl (fun mm r =>
      match r.op with
      | .eq => (jsMin v1 mm.1, jsMax v1 mm.2)
      | .lt => (jsMin v1 mm.1, mm.2)
      | .gt => (mm.1, jsMax v1 mm.2)
      | .nop => mm) (r0.value, r0.value)

/-- `minElo = minElo - 1; maxElo = maxElo + 1` (src/main.ts:114-115). -/
def searchWindow (rels : List EloRelation) : JSNum × JSNum :=
  ((jsSub (computeBounds rels).1 (some 1)), (jsAdd (computeBounds rels).2 (some 1)))

/-- Per-relation residual for candidate `x` (src/main.ts:123-142).  The
`switch` has no `nop` case, so `relError` keeps its initial value `0` there. -/
def relError (x : ℚ) (r : EloRelation) : JSNum :=
  match r.op with
  | .eq => jsAbs (jsSub r.value (some x))
  | .lt => jsMax (some 0) (jsAdd (jsSub (some x) r.value) (some 1))
  | .gt => jsMax (some 0) (jsAdd (jsSub r.value (some x)) (some 1))
  | .nop => some 0

/-- `error += relError * relError` accumulated over all relations
(src/main.ts:121-144). -/
def totalError (x : ℚ) (rels : List EloRelation) : JSNum :=
  rels.foldl (fun acc r => jsAdd acc (jsMul (relError x r) (relError x r))) (some 0)

/-- The candidate values visited by
`for (let testElo = minElo; testElo <= maxElo; testElo += 1)`
(src/main.ts:120): `minElo, minElo+1, …` while `≤ maxElo`; no iterations when
either bound is NaN or `minElo > maxElo`. -/
def candidates : JSNum → JSNum → List ℚ
  | some m, some M =>
    if m ≤ M then (List.range (⌊M - m⌋.toNat + 1)).map (fun k => m + k) else []
  | _, _ => []

/-- The best-so-far loop of `estimateElo` (src/main.ts:118-150) over the
given candidate list.  `bestError`/`bestTestElo` start at `0`; the first
iteration always overwrites them because `testElo == minElo` holds exactly
there (later candidates strictly exceed `minElo`), so the loop is the fold
below seeded with the first candidate; with no candidates `bestTestElo`
keeps its initial value `0`. -/
def bestCandidate (rels : List EloRelation) : List ℚ → ℚ
  | [] => 0
  | c :: cs =>
    (cs.foldl (fun best x =>
      if jsLt (totalError x rels) best.1 then (totalError x rels, x) else best)
      (totalError c rels, c)).2

/-- `estimateElo` (src/main.ts:95-155).  The source takes the item and reads
only its `eloRelations`; we take the relation list directly. -/
def estimateElo : List EloRelation → JSNum
  | [] => some DEFAULT_ELO
  | r0 :: rest =>
    some (bestCandidate (r0 :: rest)
      (candidates (searchWindow (r0 :: rest)).1 (searchWindow (r0 :: rest)).2))

/-- `isDefinite` (src/main.ts:46-47): exactly one relation and its op is
`"eq"`.  The `&&` short-circuit guarding the `[0]` access is captured by the
pattern match. -/
def isDefinite (item : EloItem) : Bool :=
  match item.eloRelations with
  | [r] => r.op == .eq
  | _ => false

/-- `pA` (src/main.ts:43-45): `1 / (1 + Math.pow(10, (b.elo - a.elo)/400))`,
with `Math.pow(10, ·)` abstracted as `tenPow` (NaN in, NaN out, as in JS). -/
def pA (tenPow : ℚ → ℚ) (a b : EloItem) : JSNum :=
  jsDiv (some 1)
    (jsAdd (some 1)
      (Option.map tenPow (jsDiv (jsSub b.estimatedElo a.estimatedElo) (some 400))))

/-- `afterWinAgainst` (src/main.ts:49-69), as a state transformer on the pair
(the updater's bound item, the opponent passed in): the source mutates only
the bound item, so the opponent component is returned unchanged. -/
def afterWinAgainst (tenPow : ℚ → ℚ) (item looserItem : EloItem) : EloItem × EloItem :=
  if isDefinite item then
    let itemNewElo :=
      jsAdd item.estimatedElo (jsMul (some 32) (jsSub (some 1) (pA tenPow item looserItem)))
    ({ item with estimatedElo := itemNewElo, eloRelations := [⟨.eq, itemNewElo⟩] }, looserItem)
  else
    let otherNewElo :=
      jsSub looserItem.estimatedElo (jsMul (some 32) (pA tenPow looserItem item))
    let newRels := item.eloRelations ++ [⟨.gt, otherNewElo⟩]
    let newElo := estimateElo newRels
    if newRels.length > ITEM_INCUBATION_TIME then
      ({ item with estimatedElo := newElo, eloRelations := [⟨.eq, newElo⟩] }, looserItem)
    else
      ({ item with estimatedElo := newElo, eloRelations := newRels }, looserItem)

/-- `afterLossAgainst` (src/main.ts:70-91), same conventions as
`afterWinAgainst`. -/
def afterLossAgainst (tenPow : ℚ → ℚ) (item winnerItem : EloItem) : EloItem × EloItem :=
  if isDefinite item then
    let itemNewElo :=
      jsSub item.estimatedElo (jsMul (some 32) (pA tenPow item winnerItem))
    ({ item with estimatedElo := itemNewElo, eloRelations := [⟨.eq, itemNewElo⟩] }, winnerItem)
  else
    let otherNewElo :=
      jsAdd winnerItem.estimatedElo (jsMul (some 32) (jsSub (some 1) (pA tenPow winnerItem item)))
    let newRels := item.eloRelations ++ [⟨.lt, otherNewElo⟩]
    let newElo := estimateElo newRels
    if newRels.length > ITEM_INCUBATION_TIME then
      ({ item with estimatedElo := newElo, eloRelations := [⟨.eq, newElo⟩] }, winnerItem)
    else
      ({ item with estimatedElo := newElo, eloRelations := newRels }, winnerItem)

/-- One comparison outcome applied to `item`: a win against `c.2` when
`c.1 = true`, a loss otherwise (the two branches of the click handlers,
src/main.ts:292-323, always pair one `afterWinAgainst` with one
`afterLossAgainst` on the two distinct items). -/
def applyChoice (tenPow : ℚ → ℚ) (c : Bool × EloItem) (item : EloItem) : EloItem :=
  if c.1 then (afterWinAgainst tenPow item c.2).1 else (afterLossAgainst tenPow item c.2).1

/-- JS string whitespace as used by `String.prototype.trim` and `parseFloat`,
restricted to the ASCII range (the Unicode space characters also stripped by
JS never appear in the inputs considered here). -/
def isJsWhitespace (c : Char) : Bool :=
  c == ' ' || c == '\t' || c == '\n' || c == '\r' || c == '\x0b' || c == '\x0c'

/-- JS `String.prototype.trim`. -/
def jsTrim (cs : List Char) : List Char :=
  ((cs.dropWhile isJsWhitespace).reverse.dropWhile isJsWhitespace).reverse

/-- Numeric value of a digit string (most significant first). -/
def digitsVal (cs : List Char) : Nat :=
  cs.foldl (fun n c => 10 * n + (c.toNat - Char.toNat '0')) 0

/-- Exponent suffix of a JS decimal literal: `e`/`E`, optional sign, digits.
Returns `0` when no complete exponent part is present (`parseFloat` then
stops before the `e`, e.g. `parseFloat("12e") = 12`). -/
def parseExponent (cs : List Char) : ℤ :=
  match cs with
  | c :: rest =>
    if c == 'e' || c == 'E' then
      let sr : ℤ × List Char := match rest with
        | '+' :: rr => (1, rr)
        | '-' :: rr => (-1, rr)
        | _ => (1, rest)
      let ed := sr.2.takeWhile Char.isDigit
      if ed.isEmpty then 0 else sr.1 * (digitsVal ed : ℤ)
    else 0
  | [] => 0

/-- Models the JS builtin `parseFloat`: skip leading whitespace, optional
sign, then the longest prefix that is a decimal literal
(`Digits ("." Digits?)? | "." Digits`, optional exponent); trailing junk is
ignored; `none` (NaN) when no numeric prefix exists.  The `Infinity`
literal and double overflow/precision are outside the modelled fragment. -/
def parseFloat (cs : List Char) : Option ℚ :=
  let s1 := cs.dropWhile isJsWhitespace
  let sgnRest : ℚ × List Char := match s1 with
    | '+' :: r => (1, r)
    | '-' :: r => (-1, r)
    | _ => (1, s1)
  let s2 := sgnRest.2
  let ip := s2.takeWhile Char.isDigit
  let r1 := s2.dropWhile Char.isDigit
  if ip.isEmpty then
    match r1 with
    | '.' :: r2 =>
      let fp := r2.takeWhile Char.isDigit
      if fp.isEmpty then none
      else
        some (sgnRest.1 * ((digitsVal fp : ℚ) / 10 ^ fp.length)
          * (10 : ℚ) ^ parseExponent (r2.dropWhile Char.isDigit))
    | _ => none
  else
    match r1 with
    | '.' :: r2 =>
      let fp := r2.takeWhile Char.isDigit
      some (sgnRest.1 * ((digitsVal ip : ℚ) + (digitsVal fp : ℚ) / 10 ^ fp.length)
        * (10 : ℚ) ^ parseExponent (r2.dropWhile Char.isDigit))
    | _ => some (sgnRest.1 * (digitsVal ip : ℚ) * (10 : ℚ) ^ parseExponent r1)

/-- `parseEloRelation` (src/main.ts:157-177): trim, strip a leading `<`/`>`
into the op, `parseFloat` the remainder, and demote the op to `nop` when the
parse produced NaN (the NaN value itself is kept, as in the source). -/
def parseEloRelation (s : List Char) : EloRelation :=
  let t := jsTrim s
  let opRest : EloRelationOp × List Char := match t with
    | '<' :: r => (.lt, r)
    | '>' :: r => (.gt, r)
    | _ => (.eq, t)
  let value : JSNum := parseFloat opRest.2
  { op := if value.isNone then .nop else opRest.1, value := value }

/-- JS `String.prototype.split(",")`: always at least one field. -/
def splitOnComma : List Char → List (List Char)
  | [] => [[]]
  | x :: xs =>
    if x = ',' then [] :: splitOnComma xs
    else
      match splitOnComma xs with
      | h :: t => (x :: h) :: t
      | [] => [[x]]

/-- First-occurrence split: `some (before, after)` around the first `c`. -/
def splitAtFirstChar (c : Char) : List Char → Option (List Char × List Char)
  | [] => none
  | x :: xs =>
    if x = c then some ([], xs)
    else (splitAtFirstChar c xs).map (fun p => (x :: p.1, p.2))

/-- The match `s.match(/^(.+)\((.*)\)$/)` of src/main.ts:180.  With greedy
backtracking the regex succeeds iff `s` ends in `)` and contains a `(` that
is preceded by at least one character; group 1 is everything before the
*last* such `(` and group 2 is everything between it and the final `)`.
Computed by scanning the reversed string: strip the final `)`, split at the
first `(` of the reversal (= last `(` of `s`), and require a nonempty
remainder for group 1. -/
def trailingParenSplit (cs : List Char) : Option (List Char × List Char) :=
  match cs.reverse with
  | [] => none
  | c :: rrest =>
    if c = ')' then
      match splitAtFirstChar '(' rrest with
      | some (rmid, rpre) => if rpre.isEmpty then none else some (rpre.reverse, rmid.reverse)
      | none => none
    else none

/-- `parseEloItem` (src/main.ts:179-195).  In the match branch the source
first stores `DEFAULT_ELO` and immediately overwrites it with
`estimateElo(item)` on the freshly built relation list (src/main.ts:187);
the net effect recorded here is that final value. -/
def parseEloItem (s : String) : EloItem :=
  match trailingParenSplit s.data with
  | some (pre, mid) =>
    { title := String.mk (jsTrim pre)
      estimatedElo := estimateElo ((splitOnComma mid).map parseEloRelation)
      eloRelations := (splitOnComma mid).map parseEloRelation }
  | none =>
    { title := String.mk (jsTrim s.data)
      estimatedElo := some DEFAULT_ELO
      eloRelations := [] }

/-- Follows the spec wording of 4.3 step 2 (and claim C2): bounds seeded from
the first relation's value, then each `Equal`/`LessThan` relation lowers the
minimum *via its own value*, each `Equal`/`GreaterThan` relation raises the
maximum via its own value, `Unparseable` relations leave the bounds
unchanged, and finally the window widens by 1 on each side. -/
def specWindow : List EloRelation → JSNum × JSNum
  | [] => (none, none)
  | r0 :: rest =>
    let mm := rest.foldl (fun mm r =>
      match r.op with
      | .eq => (jsMin r.value mm.1, jsMax r.value mm.2)
      | .lt => (jsMin r.value mm.1, mm.2)
      | .gt => (mm.1, jsMax r.value mm.2)
      | .nop => mm) (r0.value, r0.value)
    (jsSub mm.1 (some 1), jsAdd mm.2 (some 1))

/-- Follows the spec wording of 4.3 step 3 (and claim C1): the per-relation
residual of integer candidate `x`; `Unparseable` (and a NaN value, which the
spec says must be skipped) contributes 0. -/
def specResidual (x : ℚ) (r : EloRelation) : ℚ :=
  match r.op, r.value with
  | .eq, some v => |v - x|
  | .lt, some v => max 0 (x - v + 1)
  | .gt, some v => max 0 (v - x + 1)
  | _, _ => 0

/-- Total squared error of candidate `x`, per spec 4.3 step 3. -/
def specSqError (x : ℚ) (rels : List EloRelation) : ℚ :=
  (rels.map (fun r => specResidual x r * specResidual x r)).sum

@[simp] theorem jsAdd_some (a b : ℚ) : jsAdd (some a) (some b) = some (a + b) := rfl

@[simp] theorem jsSub_some (a b : ℚ) : jsSub (some a) (some b) = some (a - b) := rfl

@[simp] theorem jsMul_some (a b : ℚ) : jsMul (some a) (some b) = some (a * b) := rfl

@[simp] theorem jsAbs_some (a : ℚ) : jsAbs (some a) = some |a| := rfl

@[simp] theorem jsMin_some (a b : ℚ) : jsMin (some a) (some b) = some (min a b) := rfl

@[simp] theorem jsMax_some (a b : ℚ) : jsMax (some a) (some b) = some (max a b) := rfl

@[simp] theorem jsLt_some (a b : ℚ) : jsLt (some a) (some b) = decide (a < b) := rfl

theorem jsDiv_some (a b : ℚ) (h : b ≠ 0) : jsDiv (some a) (some b) = some (a / b) := by
  simp [jsDiv, h]

/-- The search loop on the window around a single finite value visits exactly
the three candidates `w - 1`, `w`, `w + 1`. -/
theorem candidates_around (w : ℚ) :
    candidates (some (w - 1)) (some (w + 1)) = [w - 1, w, w + 1] := by
  simp only [candidates]
  rw [if_pos (by linarith : (w - 1 : ℚ) ≤ w + 1)]
  rw [show (w + 1 - (w - 1) : ℚ) = 2 by ring]
  rw [show ⌊(2 : ℚ)⌋ = 2 by norm_num]
  show (List.range 3).map (fun k => w - 1 + (k : ℚ)) = [w - 1, w, w + 1]
  rw [show List.range 3 = [0, 1, 2] from rfl]
  simp [List.map]
  ring

/-- `estimateElo` of a single `eq` relation with a finite value returns that
value exactly: the window is `[v-1, v+1]`, the candidate grid is anchored at
`v - 1`, and the middle candidate `v` has residual 0. -/
theorem estimateElo_single_eq (w : ℚ) :
    estimateElo [⟨.eq, some w⟩] = some w := by
  have hw : searchWindow [⟨.eq, some w⟩] = (some (w - 1), some (w + 1)) := by
    simp [searchWindow, computeBounds]
  have e1 : totalError (w - 1) [⟨.eq, some w⟩] = some 1 := by
    simp [totalError, relError]
  have e2 : totalError w [⟨.eq, some w⟩] = some 0 := by
    simp [totalError, relError]
  have e3 : totalError (w + 1) [⟨.eq, some w⟩] = some 1 := by
    simp [totalError, relError]
  simp only [estimateElo]
  rw [hw]
  rw [candidates_around]
  simp only [bestCandidate, List.foldl, e1, e2, e3, jsLt_some]
  norm_num

/-- `estimateElo` always returns an ordinary number, never NaN: either the
default, the initial `bestTestElo = 0`, or one of the (finite) candidates. -/
theorem estimateElo_isSome (rels : List EloRelation) : ∃ q, estimateElo rels = some q := by
  cases rels with
  | nil => exact ⟨DEFAULT_ELO, rfl⟩
  | cons r0 rest => exact ⟨_, rfl⟩

/-- With finite strengths and a positive `tenPow` (as `Math.pow(10, ·)` is),
the win probability is the finite logistic value. -/
theorem pA_eq_some (tenPow : ℚ → ℚ) (hp : ∀ q, 0 < tenPow q) (a b : EloItem)
    (x y : ℚ) (ha : a.estimatedElo = some x) (hb : b.estimatedElo = some y) :
    pA tenPow a b = some (1 / (1 + tenPow ((y - x) / 400))) := by
  have h400 : (400 : ℚ) ≠ 0 := by norm_num
  have hden : (1 : ℚ) + tenPow ((y - x) / 400) ≠ 0 := by
    have := hp ((y - x) / 400)
    linarith
  unfold pA
  rw [ha, hb, jsSub_some, jsDiv_some _ _ h400]
  show jsDiv (some 1) (jsAdd (some 1) (some (tenPow ((y - x) / 400)))) = _
  rw [jsAdd_some, jsDiv_some _ _ hden]

/-- An item whose relations are all strict bounds is never definite. -/
theorem isDefinite_false_of_gtlt (item : EloItem)
    (h : ∀ r ∈ item.eloRelations, r.op = EloRelationOp.gt ∨ r.op = EloRelationOp.lt) :
    isDefinite item = false := by
  unfold isDefinite
  cases hl : item.eloRelations with
  | nil => rfl
  | cons r tail =>
    cases tail with
    | nil =>
      have hr := h r (by rw [hl]; exact List.mem_cons_self r [])
      show (r.op == EloRelationOp.eq) = false
      rcases hr with h1 | h1 <;> rw [h1] <;> rfl
    | cons r2 t2 => rfl

/-- A win/loss on a non-definite item below the incubation limit appends one
strict-bound relation. -/
theorem applyChoice_rels_incubating (tenPow : ℚ → ℚ) (c : Bool × EloItem) (item : EloItem)
    (h : isDefinite item = false)
    (hlen : item.eloRelations.length + 1 ≤ ITEM_INCUBATION_TIME) :
    ∃ op1 v, (op1 = EloRelationOp.gt ∨ op1 = EloRelationOp.lt) ∧
      (applyChoice tenPow c item).eloRelations = item.eloRelations ++ [⟨op1, v⟩] := by
  simp only [ITEM_INCUBATION_TIME] at hlen
  have hgt : ¬ ITEM_INCUBATION_TIME < item.eloRelations.length + 1 := by
    simp only [ITEM_INCUBATION_TIME]
    omega
  cases hc : c.1 with
  | true =>
    refine ⟨.gt, jsSub c.2.estimatedElo (jsMul (some 32) (pA tenPow c.2 item)), Or.inl rfl, ?_⟩
    simp [applyChoice, hc, afterWinAgainst, h, hgt]
  | false =>
    refine ⟨.lt, jsAdd c.2.estimatedElo (jsMul (some 32) (jsSub (some 1) (pA tenPow c.2 item))),
      Or.inr rfl, ?_⟩
    simp [applyChoice, hc, afterLossAgainst, h, hgt]

/-- A win/loss on a non-definite item at the incubation limit collapses the
relation list to a single `eq` relation. -/
theorem applyChoice_rels_collapse (tenPow : ℚ → ℚ) (c : Bool × EloItem) (item : EloItem)
    (h : isDefinite item = false)
    (hlen : item.eloRelations.length = ITEM_INCUBATION_TIME) :
    ∃ v, (applyChoice tenPow c item).eloRelations = [⟨EloRelationOp.eq, v⟩] := by
  have hgt : ITEM_INCUBATION_TIME < item.eloRelations.length + 1 := by
    simp only [hlen, ITEM_INCUBATION_TIME]
    omega
  cases hc : c.1 with
  | true =>
    refine ⟨estimateElo (item.eloRelations ++
      [⟨.gt, jsSub c.2.estimatedElo (jsMul (some 32) (pA tenPow c.2 item))⟩]), ?_⟩
    simp [applyChoice, hc, afterWinAgainst, h, hgt]
  | false =>
    refine ⟨estimateElo (item.eloRelations ++
      [⟨.lt, jsAdd c.2.estimatedElo (jsMul (some 32) (jsSub (some 1) (pA tenPow c.2 item)))⟩]), ?_⟩
    simp [applyChoice, hc, afterLossAgainst, h, hgt]

/-- Splitting at the first occurrence finds the marked occurrence when the
prefix is clean. -/
theorem splitAtFirstChar_append (c : Char) (l1 l2 : List Char) (h : c ∉ l1) :
    splitAtFirstChar c (l1 ++ c :: l2) = some (l1, l2) := by
  induction l1 with
  | nil => simp [splitAtFirstChar]
  | cons x xs ih =>
    have hx : ¬ x = c := by
      intro hh
      exact h (hh ▸ List.mem_cons_self x xs)
    have hxs : c ∉ xs := fun hh => h (List.mem_cons_of_mem x hh)
    simp [splitAtFirstChar, hx, ih hxs]

/-- The regex `^(.+)\((.*)\)$` on a string of the shape
`pre ++ "(" ++ mid ++ ")"`, where `mid` contains no `(` (so the marked `(` is
the last one) and `pre` is nonempty, yields groups `(pre, mid)`. -/
theorem trailingParenSplit_append (pre mid : List Char) (hpre : pre ≠ [])
    (hmid : '(' ∉ mid) :
    trailingParenSplit (pre ++ '(' :: (mid ++ [')'])) = some (pre, mid) := by
  have hrev : (pre ++ '(' :: (mid ++ [')'])).reverse
      = ')' :: (mid.reverse ++ '(' :: pre.reverse) := by
    simp
  have hmr : '(' ∉ mid.reverse := by simpa using hmid
  have hpr : ¬ (pre.reverse).isEmpty = true := by
    simp [List.isEmpty_iff, hpre]
  unfold trailingParenSplit
  rw [hrev]
  simp only [reduceIte, splitAtFirstChar_append '(' mid.reverse pre.reverse hmr, hpr,
    List.reverse_reverse, if_false, Bool.false_eq_true]

/-- C1: the claim — the estimator's result minimises the total squared error
(spec 4.3 residuals) over every integer of the spec's search window — fails
on the code: the bounds loop of `estimateElo` reads `eloRelations[1]`
instead of `eloRelations[i]` (src/main.ts:103, 107, 110), so for
`[Equal 0, Equal 0, Equal 10]` the third relation never widens the window,
the code searches only `[-1, 1]` and returns `1` with total squared error
83, while the integer `3` inside the spec window `[-1, 11]` has total
squared error 67. -/
theorem C1_bounds_bug_breaks_window_optimality :
    estimateElo [⟨.eq, some 0⟩, ⟨.eq, some 0⟩, ⟨.eq, some 10⟩] = some 1
    ∧ specWindow [⟨.eq, some 0⟩, ⟨.eq, some 0⟩, ⟨.eq, some 10⟩] = (some (-1), some 11)
    ∧ specSqError 1 [⟨.eq, some 0⟩, ⟨.eq, some 0⟩, ⟨.eq, some 10⟩] = 83
    ∧ specSqError 3 [⟨.eq, some 0⟩, ⟨.eq, some 0⟩, ⟨.eq, some 10⟩] = 67 := by
  have ht : Int.toNat 2 = 2 := rfl
  refine ⟨?_, ?_, ?_, ?_⟩
  · norm_num [estimateElo, bestCandidate, candidates, searchWindow, computeBounds, totalError,
      relError, List.range_succ, ht]
  · norm_num [specWindow]
  · norm_num [specSqError, specResidual]
  · norm_num [specSqError, specResidual]

/-- C2: the claim — each subsequent relation adjusts the bounds using *its
own* value — fails on the code: the widening loop reads the fixed index
`eloRelations[1]` (src/main.ts:103, 107, 110).  For
`[Equal 10, LessThan 5, LessThan 3]` the code's window (after the ±1
expansion) is `[4, 11]`: the third relation's value 3 is ignored and the
second relation's value 5 is used in its place, while the bounds described
by the claim give `[2, 11]`. -/
theorem C2_bounds_read_second_relation :
    searchWindow [⟨.eq, some 10⟩, ⟨.lt, some 5⟩, ⟨.lt, some 3⟩] = (some 4, some 11)
    ∧ specWindow [⟨.eq, some 10⟩, ⟨.lt, some 5⟩, ⟨.lt, some 3⟩] = (some 2, some 11)
    ∧ searchWindow [⟨.eq, some 10⟩, ⟨.lt, some 5⟩, ⟨.lt, some 3⟩]
        ≠ specWindow [⟨.eq, some 10⟩, ⟨.lt, some 5⟩, ⟨.lt, some 3⟩] := by
  refine ⟨?_, ?_, ?_⟩
  · norm_num [searchWindow, computeBounds]
  · norm_num [specWindow]
  · norm_num [searchWindow, specWindow, computeBounds]

/-- C3: the claim — removing all `Unparseable` relations never changes the
estimate — fails on the code: `estimateElo` seeds its bounds from
`eloRelations[0].value` without checking the op (src/main.ts:98-99), so a
leading `Unparseable` relation (whose value is the parser's NaN sentinel)
poisons both bounds, the search loop never runs and the estimate degenerates
to the initial `bestTestElo = 0`.  With relations `[Unparseable, LessThan 10]`
(e.g. from the line `t (x, <10)`) the code returns 0, while after removing
the `Unparseable` entry it returns 9; a list of only `Unparseable` relations
likewise returns 0 whereas the empty list returns the default 600. -/
theorem C3_unparseable_not_ignored :
    estimateElo [⟨.nop, none⟩, ⟨.lt, some 10⟩] = some 0
    ∧ estimateElo [⟨.lt, some 10⟩] = some 9
    ∧ estimateElo [⟨.nop, none⟩] = some 0
    ∧ estimateElo [] = some DEFAULT_ELO
    ∧ estimateElo [⟨.nop, none⟩, ⟨.lt, some 10⟩] ≠ estimateElo [⟨.lt, some 10⟩]
    ∧ estimateElo [⟨.nop, none⟩] ≠ estimateElo [] := by
  have ht : Int.toNat 2 = 2 := rfl
  have h1 : estimateElo [⟨.nop, none⟩, ⟨.lt, some 10⟩] = some 0 := by
    norm_num [estimateElo, bestCandidate, candidates, searchWindow, computeBounds, jsMin, jsSub,
      jsAdd]
  have h2 : estimateElo [⟨.lt, some 10⟩] = some 9 := by
    norm_num [estimateElo, bestCandidate, candidates, searchWindow, computeBounds, totalError,
      relError, List.range_succ, ht]
  have h3 : estimateElo [⟨.nop, none⟩] = some 0 := by
    norm_num [estimateElo, bestCandidate, candidates, searchWindow, computeBounds, jsSub, jsAdd]
  refine ⟨h1, h2, h3, rfl, ?_, ?_⟩
  · rw [h1, h2]
    norm_num
  · rw [h3]
    norm_num [estimateElo, DEFAULT_ELO]

/-- C4 counterexample: the claim says the title is the text before the
*first* `(` of the line, but for the line `a(b)(c)` — whose trailing
parenthesized group is `(c)` — the regex `^(.+)\((.*)\)$` of
src/main.ts:180 puts everything before the trailing group's own `(` into the
title, giving `a(b)` rather than `a`. -/
theorem C4_title_not_before_first_paren :
    (parseEloItem "a(b)(c)").title = "a(b)" ∧ ("a(b)" : String) ≠ "a" := by
  constructor
  · rfl
  · decide

/-- C4 (amended): for a line of the shape `pre ++ "(" ++ mid ++ ")"` where
the marked `(` is the one opening the trailing parenthesized group (that is,
`mid` contains no further `(`, so the group is the last one on the line) and
`pre` is nonempty, the Item Parser sets the title to `pre` trimmed — the
text before the trailing group's `(`, not before the first `(` of the line —
and parses each comma-separated token inside the group as a relation. -/
theorem C4_title_before_trailing_paren (pre mid : List Char) (hpre : pre ≠ [])
    (hmid : '(' ∉ mid) :
    parseEloItem (String.mk (pre ++ '(' :: (mid ++ [')'])))
      = { title := String.mk (jsTrim pre)
          estimatedElo := estimateElo ((splitOnComma mid).map parseEloRelation)
          eloRelations := (splitOnComma mid).map parseEloRelation } := by
  unfold parseEloItem
  rw [show (String.mk (pre ++ '(' :: (mid ++ [')']))).data = pre ++ '(' :: (mid ++ [')'])
    from rfl]
  rw [trailingParenSplit_append pre mid hpre hmid]

/-- C4 witness: the amended theorem applied to the line `Alice (650)`
(`pre = "Alice "`, `mid = "650"`). -/
theorem C4_title_before_trailing_paren_witness :
    parseEloItem (String.mk ("Alice ".data ++ '(' :: ("650".data ++ [')'])))
      = { title := String.mk (jsTrim "Alice ".data)
          estimatedElo := estimateElo ((splitOnComma "650".data).map parseEloRelation)
          eloRelations := (splitOnComma "650".data).map parseEloRelation } :=
  C4_title_before_trailing_paren "Alice ".data "650".data (by decide) (by decide)

/-- C5 counterexample: the claim says estimating `[Equal v]` returns `v`
rounded to an integer; for `v = 1/2` the code returns exactly `1/2`, which
is neither 0 nor 1 (so no integer-rounding convention can describe it). -/
theorem C5_not_rounded :
    estimateElo [⟨.eq, some (1/2)⟩] = some (1/2)
    ∧ (1 : ℚ)/2 ≠ 0 ∧ (1 : ℚ)/2 ≠ 1 := by
  refine ⟨estimateElo_single_eq (1/2), ?_, ?_⟩ <;> norm_num

/-- C5 (amended): estimating a relation list consisting of a single `Equal`
relation with (finite) value `v` returns exactly `v`: the candidate grid is
anchored at `v - 1`, so the returned value is an integer only when `v` is;
no rounding takes place. -/
theorem C5_single_eq_exact (v : ℚ) : estimateElo [⟨.eq, some v⟩] = some v :=
  estimateElo_single_eq v

/-- C9: estimating an empty relation list returns the default strength
constant 600 (src/main.ts:96, 154, 37). -/
theorem C9_empty_default : estimateElo [] = some DEFAULT_ELO ∧ DEFAULT_ELO = 600 :=
  ⟨rfl, rfl⟩

/-- Appending a strict-bound relation preserves the all-strict-bounds shape
of a relation list. -/
theorem ops_append (l : List EloRelation) (op1 : EloRelationOp) (v : JSNum)
    (hl : ∀ r ∈ l, r.op = EloRelationOp.gt ∨ r.op = EloRelationOp.lt)
    (h1 : op1 = EloRelationOp.gt ∨ op1 = EloRelationOp.lt) :
    ∀ r ∈ l ++ [⟨op1, v⟩], r.op = EloRelationOp.gt ∨ r.op = EloRelationOp.lt := by
  intro r hr
  rcases List.mem_append.mp hr with h | h
  · exact hl r h
  · cases List.mem_singleton.mp h
    exact h1

/-- C6: for a settled item (exactly one relation, of kind `eq`) the win
update sets the strength to `old + 32 * (1 - P(item, opponent))` and the
loss update to `old - 32 * P(item, opponent)`, where
`P(a, b) = 1 / (1 + 10^((b.strength - a.strength) / 400))` reads both items'
pre-update strengths; in both cases the relation list is replaced by a
single new `eq` relation holding the new strength (src/main.ts:49-54,
70-75). -/
theorem C6_settled_update_formula (tenPow : ℚ → ℚ) (item opp : EloItem)
    (h : isDefinite item = true) :
    ((afterWinAgainst tenPow item opp).1.estimatedElo
        = jsAdd item.estimatedElo (jsMul (some 32) (jsSub (some 1) (pA tenPow item opp)))
      ∧ (afterWinAgainst tenPow item opp).1.eloRelations
        = [⟨.eq, jsAdd item.estimatedElo
            (jsMul (some 32) (jsSub (some 1) (pA tenPow item opp)))⟩])
    ∧ ((afterLossAgainst tenPow item opp).1.estimatedElo
        = jsSub item.estimatedElo (jsMul (some 32) (pA tenPow item opp))
      ∧ (afterLossAgainst tenPow item opp).1.eloRelations
        = [⟨.eq, jsSub item.estimatedElo (jsMul (some 32) (pA tenPow item opp))⟩]) := by
  refine ⟨⟨?_, ?_⟩, ?_, ?_⟩ <;> simp [afterWinAgainst, afterLossAgainst, h]

/-- C6 witness: the settled update formulas at a concrete settled item,
opponent and `tenPow`. -/
theorem C6_settled_update_formula_witness :
    ((afterWinAgainst (fun _ => 1) ⟨"a", some 600, [⟨.eq, some 600⟩]⟩
        ⟨"b", some 500, []⟩).1.estimatedElo
      = jsAdd (⟨"a", some 600, [⟨.eq, some 600⟩]⟩ : EloItem).estimatedElo
          (jsMul (some 32) (jsSub (some 1)
            (pA (fun _ => 1) ⟨"a", some 600, [⟨.eq, some 600⟩]⟩ ⟨"b", some 500, []⟩)))
      ∧ (afterWinAgainst (fun _ => 1) ⟨"a", some 600, [⟨.eq, some 600⟩]⟩
          ⟨"b", some 500, []⟩).1.eloRelations
        = [⟨.eq, jsAdd (⟨"a", some 600, [⟨.eq, some 600⟩]⟩ : EloItem).estimatedElo
            (jsMul (some 32) (jsSub (some 1)
              (pA (fun _ => 1) ⟨"a", some 600, [⟨.eq, some 600⟩]⟩ ⟨"b", some 500, []⟩)))⟩])
    ∧ ((afterLossAgainst (fun _ => 1) ⟨"a", some 600, [⟨.eq, some 600⟩]⟩
          ⟨"b", some 500, []⟩).1.estimatedElo
        = jsSub (⟨"a", some 600, [⟨.eq, some 600⟩]⟩ : EloItem).estimatedElo
            (jsMul (some 32)
              (pA (fun _ => 1) ⟨"a", some 600, [⟨.eq, some 600⟩]⟩ ⟨"b", some 500, []⟩))
      ∧ (afterLossAgainst (fun _ => 1) ⟨"a", some 600, [⟨.eq, some 600⟩]⟩
          ⟨"b", some 500, []⟩).1.eloRelations
        = [⟨.eq, jsSub (⟨"a", some 600, [⟨.eq, some 600⟩]⟩ : EloItem).estimatedElo
            (jsMul (some 32)
              (pA (fun _ => 1) ⟨"a", some 600, [⟨.eq, some 600⟩]⟩ ⟨"b", some 500, []⟩))⟩]) :=
  C6_settled_update_formula (fun _ => 1) ⟨"a", some 600, [⟨.eq, some 600⟩]⟩
    ⟨"b", some 500, []⟩ rfl

/-- C10: the update operations never modify the opponent argument: the pair
returned by the state transformer carries the opponent through unchanged in
every branch, mirroring that src/main.ts:49-91 only ever assigns to fields
of the bound `item`. -/
theorem C10_opponent_unchanged (tenPow : ℚ → ℚ) (item opp : EloItem) :
    (afterWinAgainst tenPow item opp).2 = opp
    ∧ (afterLossAgainst tenPow item opp).2 = opp := by
  constructor
  · unfold afterWinAgainst
    split
    · rfl
    · dsimp only
      split <;> rfl
  · unfold afterLossAgainst
    split
    · rfl
    · dsimp only
      split <;> rfl

/-- C7: an item with zero relations that receives 5 consecutive win/loss
updates (against arbitrary opponents, with arbitrary `tenPow`) ends with
exactly one relation, of kind `eq`; at every intermediate state before the
5th update the relation count never exceeds the incubation limit 4
(src/main.ts:55-68, 76-90). -/
theorem C7_incubation_collapse (tenPow : ℚ → ℚ) (t : String) (e : JSNum)
    (c1 c2 c3 c4 c5 : Bool × EloItem) :
    ((applyChoice tenPow c5 (applyChoice tenPow c4 (applyChoice tenPow c3 (applyChoice tenPow c2
          (applyChoice tenPow c1 ⟨t, e, []⟩))))).eloRelations.length = 1
      ∧ ∀ r ∈ (applyChoice tenPow c5 (applyChoice tenPow c4 (applyChoice tenPow c3
          (applyChoice tenPow c2 (applyChoice tenPow c1 ⟨t, e, []⟩))))).eloRelations,
          r.op = EloRelationOp.eq)
    ∧ (applyChoice tenPow c1 ⟨t, e, []⟩).eloRelations.length ≤ ITEM_INCUBATION_TIME
    ∧ (applyChoice tenPow c2 (applyChoice tenPow c1 ⟨t, e, []⟩)).eloRelations.length
        ≤ ITEM_INCUBATION_TIME
    ∧ (applyChoice tenPow c3 (applyChoice tenPow c2
        (applyChoice tenPow c1 ⟨t, e, []⟩))).eloRelations.length ≤ ITEM_INCUBATION_TIME
    ∧ (applyChoice tenPow c4 (applyChoice tenPow c3 (applyChoice tenPow c2
        (applyChoice tenPow c1 ⟨t, e, []⟩)))).eloRelations.length ≤ ITEM_INCUBATION_TIME := by
  have ops0 : ∀ r ∈ (⟨t, e, []⟩ : EloItem).eloRelations,
      r.op = EloRelationOp.gt ∨ r.op = EloRelationOp.lt := by
    intro r hr
    exact absurd hr (List.not_mem_nil r)
  obtain ⟨o1, v1, ho1, h1⟩ := applyChoice_rels_incubating tenPow c1 ⟨t, e, []⟩
    (isDefinite_false_of_gtlt _ ops0) (by show 0 + 1 ≤ ITEM_INCUBATION_TIME; decide)
  have len1 : (applyChoice tenPow c1 ⟨t, e, []⟩).eloRelations.length = 1 := by
    rw [h1]
    rfl
  have ops1 : ∀ r ∈ (applyChoice tenPow c1 ⟨t, e, []⟩).eloRelations,
      r.op = EloRelationOp.gt ∨ r.op = EloRelationOp.lt := by
    rw [h1]
    exact ops_append _ o1 v1 ops0 ho1
  obtain ⟨o2, v2, ho2, h2⟩ := applyChoice_rels_incubating tenPow c2 _
    (isDefinite_false_of_gtlt _ ops1) (by rw [len1]; decide)
  have len2 : (applyChoice tenPow c2
      (applyChoice tenPow c1 ⟨t, e, []⟩)).eloRelations.length = 2 := by
    rw [h2, List.length_append, len1]
    rfl
  have ops2 : ∀ r ∈ (applyChoice tenPow c2
      (applyChoice tenPow c1 ⟨t, e, []⟩)).eloRelations,
      r.op = EloRelationOp.gt ∨ r.op = EloRelationOp.lt := by
    rw [h2]
    exact ops_append _ o2 v2 ops1 ho2
  obtain ⟨o3, v3, ho3, h3⟩ := applyChoice_rels_incubating tenPow c3 _
    (isDefinite_false_of_gtlt _ ops2) (by rw [len2]; decide)
  have len3 : (applyChoice tenPow c3 (applyChoice tenPow c2
      (applyChoice tenPow c1 ⟨t, e, []⟩))).eloRelations.length = 3 := by
    rw [h3, List.length_append, len2]
    rfl
  have ops3 : ∀ r ∈ (applyChoice tenPow c3 (applyChoice tenPow c2
      (applyChoice tenPow c1 ⟨t, e, []⟩))).eloRelations,
      r.op = EloRelationOp.gt ∨ r.op = EloRelationOp.lt := by
    rw [h3]
    exact ops_append _ o3 v3 ops2 ho3
  obtain ⟨o4, v4, ho4, h4⟩ := applyChoice_rels_incubating tenPow c4 _
    (isDefinite_false_of_gtlt _ ops3) (by rw [len3]; decide)
  have len4 : (applyChoice tenPow c4 (applyChoice tenPow c3 (applyChoice tenPow c2
      (applyChoice tenPow c1 ⟨t, e, []⟩)))).eloRelations.length = 4 := by
    rw [h4, List.length_append, len3]
    rfl
  have ops4 : ∀ r ∈ (applyChoice tenPow c4 (applyChoice tenPow c3 (applyChoice tenPow c2
      (applyChoice tenPow c1 ⟨t, e, []⟩)))).eloRelations,
      r.op = EloRelationOp.gt ∨ r.op = EloRelationOp.lt := by
    rw [h4]
    exact ops_append _ o4 v4 ops3 ho4
  obtain ⟨v5, h5⟩ := applyChoice_rels_collapse tenPow c5 _
    (isDefinite_false_of_gtlt _ ops4) (by rw [len4]; rfl)
  refine ⟨⟨?_, ?_⟩, ?_, ?_, ?_, ?_⟩
  · rw [h5]
    rfl
  · rw [h5]
    intro r hr
    cases List.mem_singleton.mp hr
    rfl
  · rw [len1]
    decide
  · rw [len2]
    decide
  · rw [len3]
    decide
  · rw [len4]
    decide

/-- C8: no operation leaves a stale cached estimate — the item produced by
the Item Parser and the items produced by either update operation all carry
`estimatedElo = estimateElo` of their own relation list.  The update half
assumes finite pre-update strengths and a positive `tenPow`, which is how
every reachable item and `Math.pow(10, ·)` behave (src/main.ts:179-195,
42-93). -/
theorem C8_estimate_never_stale (s : String) (tenPow : ℚ → ℚ) (hp : ∀ q, 0 < tenPow q)
    (item opp : EloItem) (x y : ℚ)
    (hx : item.estimatedElo = some x) (hy : opp.estimatedElo = some y) :
    (parseEloItem s).estimatedElo = estimateElo (parseEloItem s).eloRelations
    ∧ (afterWinAgainst tenPow item opp).1.estimatedElo
        = estimateElo (afterWinAgainst tenPow item opp).1.eloRelations
    ∧ (afterLossAgainst tenPow item opp).1.estimatedElo
        = estimateElo (afterLossAgainst tenPow item opp).1.eloRelations := by
  refine ⟨?_, ?_, ?_⟩
  · unfold parseEloItem
    cases h : trailingParenSplit s.data with
    | none => rfl
    | some p =>
      obtain ⟨pre, mid⟩ := p
      rfl
  · cases hdef : isDefinite item with
    | true =>
      have hpa := pA_eq_some tenPow hp item opp x y hx hy
      have hsome : jsAdd item.estimatedElo
          (jsMul (some 32) (jsSub (some 1) (pA tenPow item opp)))
          = some (x + 32 * (1 - 1 / (1 + tenPow ((y - x) / 400)))) := by
        rw [hx, hpa]
        rfl
      simp only [afterWinAgainst, hdef, reduceIte]
      rw [hsome]
      exact (estimateElo_single_eq _).symm
    | false =>
      simp only [afterWinAgainst, hdef, Bool.false_eq_true, if_false]
      split
      · obtain ⟨q, hq⟩ := estimateElo_isSome (item.eloRelations
          ++ [⟨.gt, jsSub opp.estimatedElo (jsMul (some 32) (pA tenPow opp item))⟩])
        rw [hq]
        exact (estimateElo_single_eq q).symm
      · rfl
  · cases hdef : isDefinite item with
    | true =>
      have hpa := pA_eq_some tenPow hp item opp x y hx hy
      have hsome : jsSub item.estimatedElo (jsMul (some 32) (pA tenPow item opp))
          = some (x - 32 * (1 / (1 + tenPow ((y - x) / 400)))) := by
        rw [hx, hpa]
        rfl
      simp only [afterLossAgainst, hdef, reduceIte]
      rw [hsome]
      exact (estimateElo_single_eq _).symm
    | false =>
      simp only [afterLossAgainst, hdef, Bool.false_eq_true, if_false]
      split
      · obtain ⟨q, hq⟩ := estimateElo_isSome (item.eloRelations
          ++ [⟨.lt, jsAdd opp.estimatedElo (jsMul (some 32) (jsSub (some 1) (pA tenPow opp item)))⟩])
        rw [hq]
        exact (estimateElo_single_eq q).symm
      · rfl

/-- C8 witness: the no-stale-estimate property at a concrete parsed line,
settled item, opponent and `tenPow`. -/
theorem C8_estimate_never_stale_witness :
    (parseEloItem "Alice (650)").estimatedElo
        = estimateElo (parseEloItem "Alice (650)").eloRelations
    ∧ (afterWinAgainst (fun _ => 1) ⟨"a", some 600, [⟨.eq, some 600⟩]⟩
        ⟨"b", some 500, []⟩).1.estimatedElo
        = estimateElo (afterWinAgainst (fun _ => 1) ⟨"a", some 600, [⟨.eq, some 600⟩]⟩
            ⟨"b", some 500, []⟩).1.eloRelations
    ∧ (afterLossAgainst (fun _ => 1) ⟨"a", some 600, [⟨.eq, some 600⟩]⟩
        ⟨"b", some 500, []⟩).1.estimatedElo
        = estimateElo (afterLossAgainst (fun _ => 1) ⟨"a", some 600, [⟨.eq, some 600⟩]⟩
            ⟨"b", some 500, []⟩).1.eloRelations :=
  C8_estimate_never_stale "Alice (650)" (fun _ => 1) (fun _ => one_pos)
    ⟨"a", some 600, [⟨.eq, some 600⟩]⟩ ⟨"b", some 500, []⟩ 600 500 rfl rfl
